import Mathlib

/-!
Verification development for the coding-agent core of this repository
(`agent.ts`): the cosine-similarity retrieval, the tool registry, and the
`runStream` turn loop with its streaming progress events.

Shallow embedding conventions:
* JavaScript numbers are modelled as real numbers (`ℝ`).
* The filesystem touched by the tools is modelled as an explicit state
  (`FS`): an association list of files plus a list of existing directories,
  threaded through tool handlers.  Filesystem primitives are modelled as
  always succeeding (no permission errors); `fs.existsSync` is true for
  files and directories alike.
* The language model is an oracle `Model`: a function from the current
  transcript to either a response (`Except.ok`) or a thrown exception
  (`Except.error`), covering every possible model behavior.
* The async generator `runStream` yields finitely many events (the loop is
  bounded by `maxTurns`), so its output is modelled as the `List` of events
  it produces, together with the number of model invocations performed and
  the final transcript and filesystem state.
-/

/-- JSON-ish argument values carried by a tool call (`toolCall.args`). -/
inductive JVal where
  | str (s : String)
  | num (q : ℚ)
  | null
deriving DecidableEq

/-- Tool arguments: a record of named fields, as delivered by the model. -/
def ToolArgs := List (String × JVal)

instance : DecidableEq ToolArgs := by
  unfold ToolArgs
  infer_instance

/-- Look up a field and return its payload only when it is a string; any
absent or non-string field behaves like `undefined`/wrongly-typed data in
the JavaScript handlers. -/
def lookupStr (args : ToolArgs) (key : String) : Option String :=
  match args.lookup key with
  | some (JVal.str s) => some s
  | _ => none

/-- JavaScript template-literal coercion of an argument value: a missing
field prints as `undefined`, `null` as `null`, a string as itself; a
number prints via its canonical rational rendering (a model of
JavaScript's number-to-string formatting, which no claim inspects). -/
def jsShow : Option JVal → String
  | none => "undefined"
  | some (JVal.str s) => s
  | some (JVal.num q) => toString q
  | some JVal.null => "null"

/-- Filesystem state threaded through the tool handlers: `files` is an
association list (later writes are consed on the front, so lookup sees the
most recent content), `dirs` the set of existing directories. -/
structure FS where
  files : List (String × String)
  dirs : List String
deriving DecidableEq

/-- Models `fs.existsSync`: true for an existing file or directory. -/
def fsExists (fs : FS) (p : String) : Bool :=
  (fs.files.lookup p).isSome || fs.dirs.contains p

/-- Split a character list at every `'/'` (the semantics of
`String.splitOn "/"`, implemented by structural recursion so it reduces). -/
def splitSlash : List Char → List (List Char)
  | [] => [[]]
  | c :: cs =>
    let r := splitSlash cs
    if c = '/' then [] :: r
    else (c :: r.headD []) :: r.tail

/-- Join segment lists with `'/'` (the inverse direction of `splitSlash`). -/
def joinSlash : List (List Char) → List Char
  | [] => []
  | [x] => x
  | x :: y :: xs => x ++ '/' :: joinSlash (y :: xs)

/-- `path.dirname` for POSIX paths, following Node's algorithm: scanning
from the end (never consuming index 0), skip trailing separators, then
find the separator that terminates the directory part and return the
prefix before it; `"."` when none is found and the path is relative,
`"/"` when none is found and the path is absolute, `"//"` for the
double-root special case.  In particular trailing slashes are ignored:
`dirname "a/b/" = "a"`. -/
def dirname (p : String) : String :=
  match p.data with
  | [] => "."
  | c0 :: cs =>
    let r := (((c0 :: cs).reverse.take cs.length).dropWhile (fun c => c = '/')).dropWhile
      (fun c => c ≠ '/')
    if r = [] then (if c0 = '/' then "/" else ".")
    else if c0 = '/' ∧ r.length = 1 then "//"
    else String.mk ((c0 :: cs).take r.length)

/-- The proper ancestors of a directory path (each strict segment-list
prefix of it), used to model `fs.mkdirSync(dir, { recursive: true })`. -/
def properAncestors (d : String) : List String :=
  let parts := splitSlash d.data
  (List.range (parts.length - 1)).map fun i => String.mk (joinSlash (parts.take (i + 1)))

/-- Models `fs.mkdirSync(d, { recursive: true })`: `d` and all its
ancestors now exist. -/
def mkdirRecursive (fs : FS) (d : String) : FS :=
  ⟨fs.files, d :: properAncestors d ++ fs.dirs⟩

/-- The `if (!fs.existsSync(dir)) fs.mkdirSync(dir, { recursive: true })`
step of the `write_file` handler. -/
def mkdirIfMissing (fs : FS) (d : String) : FS :=
  if fsExists fs d then fs else mkdirRecursive fs d

/-- Models `fs.writeFileSync(p, c)` on a non-directory target: the new
content shadows any previous content of `p`. -/
def writeF (fs : FS) (p c : String) : FS :=
  ⟨(p, c) :: fs.files, fs.dirs⟩

/-- The message of the `TypeError` thrown by `path.dirname` when its
argument is not a string.  The exact text is produced inside Node; it is
modelled as a fixed constant, which no claim inspects beyond its being
the caught `e.message`. -/
def pathTypeErr : String :=
  "The \x22path\x22 argument must be of type string. Received undefined"

/-- The message of the `TypeError` thrown by `fs.writeFileSync` when its
data argument is not a string.  The exact text is produced inside Node;
it is modelled as a fixed constant. -/
def dataTypeErr : String :=
  "The \x22data\x22 argument must be of type string. Received undefined"

/-- The `read_file` tool handler (`agent.ts`): destructures `path` from
the raw arguments, checks `existsSync`, then reads.  `fs.existsSync`
swallows its own errors and returns `false` for a missing or non-string
`path`, so that case flows through the ordinary not-found branch with the
argument coerced into the template string — nothing is thrown or caught
there.  Reading a directory is the modelled `EISDIR` error from
`readFileSync`, which the handler's `catch` folds into a string. -/
def readFileTool (args : ToolArgs) (fs : FS) : String × FS :=
  match lookupStr args "path" with
  | none => ("File not found: " ++ jsShow (args.lookup "path"), fs)
  | some p =>
    if fsExists fs p = false then ("File not found: " ++ p, fs)
    else
      match fs.files.lookup p with
      | some c => (c, fs)
      | none => ("Error reading file: EISDIR: illegal operation on a directory", fs)

/-- The `write_file` tool handler (`agent.ts`).  Statement order matters
and is preserved: `path.dirname` runs first (a missing or non-string
`path` throws a `TypeError` there, before any side effect), then the
conditional `mkdirSync`, then `writeFileSync` (a missing or non-string
`content` throws there, *after* the directory was created; a target path
that is an existing directory throws `EISDIR` there).  Every thrown
failure is caught and returned as `"Error writing file: " ++ e.message`. -/
def writeFileTool (args : ToolArgs) (fs : FS) : String × FS :=
  match lookupStr args "path" with
  | none => ("Error writing file: " ++ pathTypeErr, fs)
  | some filePath =>
    let fs1 := mkdirIfMissing fs (dirname filePath)
    match lookupStr args "content" with
    | none => ("Error writing file: " ++ dataTypeErr, fs1)
    | some content =>
      if fs1.dirs.contains filePath then
        ("Error writing file: EISDIR: illegal operation on a directory", fs1)
      else ("Successfully wrote to " ++ filePath, writeF fs1 filePath content)

/-- Models `fs.readdirSync`: the base names of entries whose parent is `p`. -/
def readdir (fs : FS) (p : String) : List String :=
  ((fs.files.map Prod.fst ++ fs.dirs).filter fun q => dirname q = p).map fun q =>
    String.mk ((splitSlash q.data).getLastD [])

/-- The `list_files` tool handler (`agent.ts`).  As with `read_file`,
`fs.existsSync` returns `false` for a missing or non-string `path`, so
that case takes the ordinary not-found branch — nothing is thrown. -/
def listFilesTool (args : ToolArgs) (fs : FS) : String × FS :=
  match lookupStr args "path" with
  | none => ("Directory not found: " ++ jsShow (args.lookup "path"), fs)
  | some dirPath =>
    if fsExists fs dirPath = false then ("Directory not found: " ++ dirPath, fs)
    else (String.intercalate "\n" (readdir fs dirPath), fs)

/-- A tool definition (`interface ToolDef` in `agent.ts`): name,
description shown to the model, parameter schema (the zod object's
required string fields), and handler. -/
structure ToolDef where
  name : String
  description : String
  schema : List String
  func : ToolArgs → FS → String × FS

/-- Models zod validation of `z.object({...})` with required string
fields: every required key must be present with a string value. -/
def schemaCheck (required : List String) (args : ToolArgs) : Bool :=
  required.all fun k => (lookupStr args k).isSome

/-- The `read_file` tool record as declared in `agent.ts`. -/
def readFileDef : ToolDef :=
  ⟨"read_file", "Read the content of a file", ["path"], readFileTool⟩

/-- The `write_file` tool record as declared in `agent.ts`. -/
def writeFileDef : ToolDef :=
  ⟨"write_file", "Write content to a file. Overwrites existing file.",
    ["path", "content"], writeFileTool⟩

/-- The `list_files` tool record as declared in `agent.ts`. -/
def listFilesDef : ToolDef :=
  ⟨"list_files", "List files in a directory", ["path"], listFilesTool⟩

/-- The tool registry: the `tools` array built in `runStream`. -/
def tools : List ToolDef := [readFileDef, writeFileDef, listFilesDef]

/-- Models `tools.find(t => t.name === toolCall.name)`. -/
def findTool (n : String) : Option ToolDef :=
  tools.find? fun t => t.name == n

/-- A model-issued tool call: optional correlation id, tool name, raw
arguments. -/
structure ToolCall where
  name : String
  id : Option String
  args : ToolArgs
deriving DecidableEq

/-- One model response: textual content plus the (possibly empty) list of
requested tool calls. -/
structure ModelResponse where
  content : String
  tool_calls : List ToolCall
deriving DecidableEq

/-- Transcript entries (`SystemMessage` / `HumanMessage` / `AIMessage` /
`ToolMessage` in the source). -/
inductive Msg where
  | system (content : String)
  | human (content : String)
  | ai (resp : ModelResponse)
  | tool (tool_call_id : String) (content : String)
deriving DecidableEq

/-- Progress events yielded on the streaming channel.  The source emits
them as newline-delimited JSON objects tagged with a `type` field; the
claims only concern the typed payloads, modelled here. -/
inductive Event where
  | toolStart (tools : List String)
  | toolResult (tool : String) (result : String)
  | message (content : String)
  | error (content : String)
deriving DecidableEq

/-- A terminal event: the `message` (final answer) or `error` variant. -/
def isTerminal : Event → Bool
  | Event.message _ => true
  | Event.error _ => true
  | _ => false

/-- The correlation id stored on a `ToolMessage`: models the JavaScript
expression `toolCall.id || "unknown"`, where both an absent id and the
empty string (falsy) collapse to `"unknown"`. -/
def idOrUnknown : Option String → String
  | none => "unknown"
  | some s => if s = "" then "unknown" else s

/-- A language-model behavior: given the transcript, either return a
response or throw (`Except.error` carries the exception message). -/
def Model := List Msg → Except String ModelResponse

/-- Output of the tool-dispatch phase of one turn: the events yielded, the
`ToolMessage`s appended to the transcript, and the filesystem afterwards. -/
structure ToolPhase where
  events : List Event
  msgs : List Msg
  fs : FS
deriving DecidableEq

/-- The `for (const toolCall of response.tool_calls)` loop in `runStream`:
a registered tool is executed on the raw arguments and yields a
`tool_result` event plus a `ToolMessage`; an unregistered name yields only
a `ToolMessage` with content `"Error: Tool not found"` and no event. -/
def processToolCalls : List ToolCall → FS → ToolPhase
  | [], fs => ⟨[], [], fs⟩
  | tc :: rest, fs =>
    match findTool tc.name with
    | some t =>
      let r := t.func tc.args fs
      let p := processToolCalls rest r.2
      ⟨Event.toolResult t.name r.1 :: p.events,
        Msg.tool (idOrUnknown tc.id) r.1 :: p.msgs, p.fs⟩
    | none =>
      let p := processToolCalls rest fs
      ⟨p.events, Msg.tool (idOrUnknown tc.id) "Error: Tool not found" :: p.msgs, p.fs⟩

/-- Result of running the turn loop: the events yielded in order, the
number of model invocations performed, and the final transcript and
filesystem. -/
structure LoopResult where
  events : List Event
  invocations : Nat
  messages : List Msg
  fs : FS

/-- The `while (turns < maxTurns)` loop of `runStream`, with the loop
variant `maxTurns - turns` made explicit as fuel (each iteration
increments `turns`, so the fuel decreases).  Each iteration invokes the
model once; an exception from the invocation yields a single `error` event
and breaks; a response without tool calls yields a single `message` event
and breaks; otherwise a `tool_start` event, the tool-dispatch phase, and
the next iteration. -/
def runLoop (model : Model) : Nat → List Msg → FS → LoopResult
  | 0, msgs, fs => ⟨[], 0, msgs, fs⟩
  | fuel + 1, msgs, fs =>
    match model msgs with
    | Except.error e => ⟨[Event.error e], 1, msgs, fs⟩
    | Except.ok resp =>
      let msgs1 := msgs ++ [Msg.ai resp]
      match resp.tool_calls with
      | [] => ⟨[Event.message resp.content], 1, msgs1, fs⟩
      | tc :: tcs =>
        let p := processToolCalls (tc :: tcs) fs
        let rest := runLoop model fuel (msgs1 ++ p.msgs) p.fs
        ⟨Event.toolStart ((tc :: tcs).map ToolCall.name) :: p.events ++ rest.events,
          1 + rest.invocations, rest.messages, rest.fs⟩

/-- The fixed turn budget (`const maxTurns = 15`). -/
def maxTurns : Nat := 15

/-- One pass of the loop body of `cosineSimilarity` in `agent.ts`: for
each index below both lengths, accumulate `dotProduct`, `normA` and
`normB`.  (The JavaScript loop runs over `vecA`'s indices; for the
equal-length vectors the claims are about, traversing both lists in
lockstep is the same computation.)  Returns `(dotProduct, normA, normB)`. -/
def simAcc : List ℝ → List ℝ → ℝ × ℝ × ℝ
  | a :: as, b :: bs =>
    let r := simAcc as bs
    (a * b + r.1, a * a + r.2.1, b * b + r.2.2)
  | _, _ => (0, 0, 0)

/-- `cosineSimilarity(vecA, vecB)` from `agent.ts`:
`dotProduct / (Math.sqrt(normA) * Math.sqrt(normB))`, guarded to `0` when
either accumulated norm is `0`. -/
noncomputable def cosineSimilarity (vecA vecB : List ℝ) : ℝ :=
  let r := simAcc vecA vecB
  if r.2.1 = 0 ∨ r.2.2 = 0 then 0
  else r.1 / (Real.sqrt r.2.1 * Real.sqrt r.2.2)

/-- The `DocumentChunk` record declared in `indexer.ts`
(`export interface DocumentChunk { path: string; content: string;
embedding?: number[] }`): a source location relative to the indexing
root, the chunk text, and an optional embedding vector — absent when
embeddings were not computed at index time. -/
structure Chunk where
  path : String
  content : String
  embedding : Option (List ℝ)

/-- The embedder capability (`embeddings.embedQuery`): may throw, which is
modelled by `Except.error`. -/
def Embedder := String → Except String (List ℝ)

/-- The score attached to a chunk in `retrieveContext`:
`chunk.embedding ? cosineSimilarity(queryEmbedding, chunk.embedding) : -1`. -/
noncomputable def scoreOf (qe : List ℝ) (c : Chunk) : ℝ :=
  match c.embedding with
  | some v => cosineSimilarity qe v
  | none => -1

/-- The `scored` array of `retrieveContext`: every chunk paired with its
score. -/
noncomputable def scoredChunks (qe : List ℝ) (index : List Chunk) : List (Chunk × ℝ) :=
  index.map fun c => (c, scoreOf qe c)

/-- The descending-by-score order used by `scored.sort((a, b) => b.score -
a.score)`: `a` precedes `b` when `a`'s score is at least `b`'s. -/
def scoreGe (a b : Chunk × ℝ) : Prop := b.2 ≤ a.2

noncomputable instance : DecidableRel scoreGe := fun a b => Real.decidableLE b.2 a.2

instance : IsTotal (Chunk × ℝ) scoreGe := ⟨fun a b => le_total b.2 a.2⟩

instance : IsTrans (Chunk × ℝ) scoreGe := ⟨fun _ _ _ h1 h2 => le_trans h2 h1⟩

/-- The `scored` array after `sort((a, b) => b.score - a.score)`: sorted
by descending score.  JavaScript's sort is stable; inserting each element
after the already-placed elements of no smaller score reproduces that
stable descending order. -/
noncomputable def rankedChunks (qe : List ℝ) (index : List Chunk) : List (Chunk × ℝ) :=
  (scoredChunks qe index).insertionSort scoreGe

/-- The per-chunk rendering inside `retrieveContext`:
`File: ${s.chunk.path}\nContent:\n${s.chunk.content}\n`. -/
def formatChunk (s : Chunk × ℝ) : String :=
  "File: " ++ s.1.path ++ "\nContent:\n" ++ s.1.content ++ "\n"

/-- `Agent.retrieveContext(query, k)` from `agent.ts`.  Guards, in source
order: empty index or missing embedder; first chunk without an embedding;
then the `try` block, whose `catch` turns an embedding failure into the
empty string.  Otherwise the top `k` chunks by descending cosine
similarity are rendered and joined with the `"\n---\n"` delimiter. -/
noncomputable def retrieveContext (index : List Chunk) (embeddings : Option Embedder)
    (query : String) (k : Nat) : String :=
  match index, embeddings with
  | [], _ => ""
  | _, none => ""
  | c0 :: rest, some emb =>
    match c0.embedding with
    | none => ""
    | some _ =>
      match emb query with
      | Except.error _ => ""
      | Except.ok qe =>
        String.intercalate "\n---\n" (((rankedChunks qe (c0 :: rest)).take k).map formatChunk)

/-- The system prompt built in `runStream`, with the retrieved context
spliced in (whitespace normalized; no claim inspects this text). -/
def systemPrompt (context : String) : String :=
  "You are a skilled software engineer agent.\n" ++
  "You have access to tools to read, write, and list files.\n" ++
  "You also have context from the codebase provided below.\n\n" ++
  "When asked to create or modify code, first understand the codebase context, " ++
  "then plan your changes, and finally use the tools to apply them.\n\n" ++
  "Codebase Context:\n" ++ context ++ "\n"

/-- `Agent.runStream(query, messageHistory)`: retrieve context with the
default `k = 5`, build the initial transcript (system message, carried
history, the new human query), then run the turn loop with the full
budget. -/
noncomputable def runStream (index : List Chunk) (embeddings : Option Embedder)
    (model : Model) (query : String) (messageHistory : List Msg) (fs : FS) : LoopResult :=
  let context := retrieveContext index embeddings query 5
  runLoop model maxTurns
    (Msg.system (systemPrompt context) :: messageHistory ++ [Msg.human query]) fs

/-- The correlation id carried by a transcript entry (meaningful only for
`ToolMessage`s). -/
def msgToolId : Msg → String
  | Msg.tool i _ => i
  | _ => ""

/-- Whether a transcript entry is a `ToolMessage`. -/
def isToolMsg : Msg → Bool
  | Msg.tool _ _ => true
  | _ => false

/--
C4, counterexample to the claim as stated: arguments are *not* validated
against the tool's schema before the handler runs.  For a `write_file`
call whose arguments fail the schema (the required `content` field is
missing), the handler is nevertheless invoked and performs a side effect
(it creates the parent directory) before failing — under the claim, a
schema-invalid call would be rejected before invocation and the
filesystem would be unchanged.
-/
theorem writeFile_side_effect_without_validation :
    schemaCheck writeFileDef.schema [("path", JVal.str "a/b.txt")] = false
  ∧ (processToolCalls [⟨"write_file", some "1", [("path", JVal.str "a/b.txt")]⟩]
      ⟨[], []⟩).fs ≠ (⟨[], []⟩ : FS) := ⟨by decide, by decide⟩

/--
C4 as amended: the loop passes the raw, unvalidated arguments straight to
the registered tool's handler (the zod schema is only declared to the
model via `bindTools`), and the handler always answers with a string,
never an exception: on schema-invalid arguments `read_file` and
`list_files` simply take their ordinary not-found branch (`fs.existsSync`
swallows the bad path and returns `false`), while `write_file`'s thrown
`TypeError` is caught and folded into an `"Error writing file: ..."`
result string.
-/
theorem registered_tool_dispatch_unvalidated (t : ToolDef) (tc : ToolCall) (fs : FS)
    (ht : findTool tc.name = some t) :
    (processToolCalls [tc] fs).events = [Event.toolResult t.name (t.func tc.args fs).1]
  ∧ (processToolCalls [tc] fs).msgs = [Msg.tool (idOrUnknown tc.id) (t.func tc.args fs).1]
  ∧ (processToolCalls [tc] fs).fs = (t.func tc.args fs).2
  ∧ (schemaCheck t.schema tc.args = false →
      ((∃ v, (t.func tc.args fs).1 = "File not found: " ++ v)
    ∨ (∃ v, (t.func tc.args fs).1 = "Directory not found: " ++ v)
    ∨ (∃ m, (t.func tc.args fs).1 = "Error writing file: " ++ m))) := by
  refine ⟨by simp [processToolCalls, ht], by simp [processToolCalls, ht],
    by simp [processToolCalls, ht], ?_⟩
  intro hsc
  have hmem : t ∈ tools := List.mem_of_find?_eq_some ht
  have hcases : t = readFileDef ∨ t = writeFileDef ∨ t = listFilesDef := by
    simpa [tools] using hmem
  rcases hcases with rfl | rfl | rfl
  · simp only [readFileDef, schemaCheck, List.all_cons, List.all_nil, Bool.and_true] at hsc
    cases hl : lookupStr tc.args "path" with
    | none =>
      exact Or.inl ⟨jsShow (tc.args.lookup "path"), by simp [readFileDef, readFileTool, hl]⟩
    | some s => rw [hl] at hsc; simp at hsc
  · simp only [writeFileDef, schemaCheck, List.all_cons, List.all_nil, Bool.and_true,
      Bool.and_eq_false_iff] at hsc
    cases hl : lookupStr tc.args "path" with
    | none =>
      exact Or.inr (Or.inr ⟨pathTypeErr, by simp [writeFileDef, writeFileTool, hl]⟩)
    | some s =>
      cases hl2 : lookupStr tc.args "content" with
      | none =>
        exact Or.inr (Or.inr ⟨dataTypeErr, by simp [writeFileDef, writeFileTool, hl, hl2]⟩)
      | some s2 => rw [hl] at hsc; rw [hl2] at hsc; simp at hsc
  · simp only [listFilesDef, schemaCheck, List.all_cons, List.all_nil, Bool.and_true] at hsc
    cases hl : lookupStr tc.args "path" with
    | none =>
      exact Or.inr (Or.inl
        ⟨jsShow (tc.args.lookup "path"), by simp [listFilesDef, listFilesTool, hl]⟩)
    | some s => rw [hl] at hsc; simp at hsc

/--
Witness for the amended C4 at a concrete input: a `read_file` call with
empty (schema-invalid) arguments still reaches the handler, which answers
through its ordinary not-found branch with the coerced `undefined`
argument in the result string, and that string is what the tool-result
event carries.
-/
theorem registered_tool_dispatch_unvalidated_witness :
    (processToolCalls [⟨"read_file", none, []⟩] ⟨[], []⟩).events
      = [Event.toolResult "read_file" "File not found: undefined"]
  ∧ ((∃ v, (readFileDef.func ([] : ToolArgs) ⟨[], []⟩).1 = "File not found: " ++ v)
    ∨ (∃ v, (readFileDef.func ([] : ToolArgs) ⟨[], []⟩).1 = "Directory not found: " ++ v)
    ∨ (∃ m, (readFileDef.func ([] : ToolArgs) ⟨[], []⟩).1 = "Error writing file: " ++ m)) := by
  have h := registered_tool_dispatch_unvalidated readFileDef ⟨"read_file", none, []⟩ ⟨[], []⟩ rfl
  exact ⟨h.1.trans (by decide), h.2.2.2 (by decide)⟩

/--
C10 as amended: the tool-dispatch phase appends exactly one `ToolMessage`
per processed tool call, in order, whose correlation id is the call's id
when the model supplied a non-empty one and the fixed string `"unknown"`
when the id is absent *or the empty string* (the source computes
`toolCall.id || "unknown"`, and `""` is falsy); hence two id-less calls in
one assistant turn share the id `"unknown"`.
-/
theorem toolResult_message_ids (tcs : List ToolCall) (fs : FS) :
    (processToolCalls tcs fs).msgs.map msgToolId = tcs.map (fun tc => idOrUnknown tc.id)
  ∧ (processToolCalls tcs fs).msgs.length = tcs.length
  ∧ ∀ m ∈ (processToolCalls tcs fs).msgs, isToolMsg m = true := by
  induction tcs generalizing fs with
  | nil => simp [processToolCalls]
  | cons tc rest ih =>
    cases hf : findTool tc.name with
    | some t =>
      have h := ih ((t.func tc.args fs).2)
      refine ⟨?_, ?_, ?_⟩
      · simp [processToolCalls, hf, msgToolId, h.1]
      · simp [processToolCalls, hf, h.2.1]
      · intro m hm
        simp only [processToolCalls, hf, List.mem_cons] at hm
        rcases hm with rfl | hm
        · rfl
        · exact h.2.2 m hm
    | none =>
      have h := ih fs
      refine ⟨?_, ?_, ?_⟩
      · simp [processToolCalls, hf, msgToolId, h.1]
      · simp [processToolCalls, hf, h.2.1]
      · intro m hm
        simp only [processToolCalls, hf, List.mem_cons] at hm
        rcases hm with rfl | hm
        · rfl
        · exact h.2.2 m hm

/--
C10, counterexample to the claim as stated: the model *did* supply an id
(the empty string), yet the appended `ToolMessage` carries `"unknown"`,
not the supplied id, because `toolCall.id || "unknown"` treats `""` as
falsy.
-/
theorem toolMessage_empty_id_becomes_unknown :
    (⟨"read_file", some "", [("path", JVal.str "x")]⟩ : ToolCall).id = some ""
  ∧ (processToolCalls [⟨"read_file", some "", [("path", JVal.str "x")]⟩]
      ⟨[], []⟩).msgs.map msgToolId = ["unknown"]
  ∧ ("unknown" : String) ≠ "" := ⟨rfl, by decide, by decide⟩

theorem processToolCalls_events_not_terminal (tcs : List ToolCall) (fs : FS) :
    ∀ e ∈ (processToolCalls tcs fs).events, isTerminal e = false := by
  induction tcs generalizing fs with
  | nil => simp [processToolCalls]
  | cons tc rest ih =>
    intro e he
    cases hf : findTool tc.name with
    | some t =>
      simp only [processToolCalls, hf, List.mem_cons] at he
      rcases he with rfl | he
      · rfl
      · exact ih _ e he
    | none =>
      simp only [processToolCalls, hf] at he
      exact ih fs e he

theorem mem_dropLast_append {α : Type} {x y : List α} {e : α} (h : e ∈ (x ++ y).dropLast) :
    e ∈ x ∨ e ∈ y.dropLast := by
  cases y with
  | nil =>
    rw [List.append_nil] at h
    exact Or.inl ((List.dropLast_sublist x).subset h)
  | cons b l =>
    rw [List.dropLast_append_cons] at h
    simpa using List.mem_append.mp h

theorem runLoop_error_eq (model : Model) (fuel : Nat) (msgs : List Msg) (fs : FS) (e : String)
    (hm : model msgs = Except.error e) :
    runLoop model (fuel + 1) msgs fs = ⟨[Event.error e], 1, msgs, fs⟩ := by
  simp [runLoop, hm]

theorem runLoop_final_eq (model : Model) (fuel : Nat) (msgs : List Msg) (fs : FS)
    (resp : ModelResponse) (hm : model msgs = Except.ok resp) (hnc : resp.tool_calls = []) :
    runLoop model (fuel + 1) msgs fs
      = ⟨[Event.message resp.content], 1, msgs ++ [Msg.ai resp], fs⟩ := by
  simp [runLoop, hm, hnc]

theorem runLoop_tools_eq (model : Model) (fuel : Nat) (msgs : List Msg) (fs : FS)
    (resp : ModelResponse) (tc : ToolCall) (tcs : List ToolCall)
    (hm : model msgs = Except.ok resp) (htc : resp.tool_calls = tc :: tcs) :
    runLoop model (fuel + 1) msgs fs
      = ⟨Event.toolStart ((tc :: tcs).map ToolCall.name)
            :: (processToolCalls (tc :: tcs) fs).events
            ++ (runLoop model fuel
                ((msgs ++ [Msg.ai resp]) ++ (processToolCalls (tc :: tcs) fs).msgs)
                (processToolCalls (tc :: tcs) fs).fs).events,
          1 + (runLoop model fuel
                ((msgs ++ [Msg.ai resp]) ++ (processToolCalls (tc :: tcs) fs).msgs)
                (processToolCalls (tc :: tcs) fs).fs).invocations,
          (runLoop model fuel
                ((msgs ++ [Msg.ai resp]) ++ (processToolCalls (tc :: tcs) fs).msgs)
                (processToolCalls (tc :: tcs) fs).fs).messages,
          (runLoop model fuel
                ((msgs ++ [Msg.ai resp]) ++ (processToolCalls (tc :: tcs) fs).msgs)
                (processToolCalls (tc :: tcs) fs).fs).fs⟩ := by
  simp [runLoop, hm, htc]

theorem runLoop_invocations_le (model : Model) (fuel : Nat) (msgs : List Msg) (fs : FS) :
    (runLoop model fuel msgs fs).invocations ≤ fuel := by
  induction fuel generalizing msgs fs with
  | zero => simp [runLoop]
  | succ n ih =>
    cases hm : model msgs with
    | error e =>
      rw [runLoop_error_eq model n msgs fs e hm]
      exact Nat.succ_le_succ (Nat.zero_le n)
    | ok resp =>
      cases htc : resp.tool_calls with
      | nil =>
        rw [runLoop_final_eq model n msgs fs resp hm htc]
        exact Nat.succ_le_succ (Nat.zero_le n)
      | cons tc tcs =>
        rw [runLoop_tools_eq model n msgs fs resp tc tcs hm htc]
        have := ih ((msgs ++ [Msg.ai resp]) ++ (processToolCalls (tc :: tcs) fs).msgs)
          (processToolCalls (tc :: tcs) fs).fs
        dsimp only
        omega

theorem runLoop_invocations_pos (model : Model) (fuel : Nat) (msgs : List Msg) (fs : FS) :
    1 ≤ (runLoop model (fuel + 1) msgs fs).invocations := by
  cases hm : model msgs with
  | error e => rw [runLoop_error_eq model fuel msgs fs e hm]
  | ok resp =>
    cases htc : resp.tool_calls with
    | nil => rw [runLoop_final_eq model fuel msgs fs resp hm htc]
    | cons tc tcs =>
      rw [runLoop_tools_eq model fuel msgs fs resp tc tcs hm htc]
      dsimp only
      exact Nat.le_add_right 1 _

theorem runLoop_terminal_shape (model : Model) (fuel : Nat) (msgs : List Msg) (fs : FS) :
    ((runLoop model fuel msgs fs).events.filter isTerminal).length ≤ 1
  ∧ ∀ e ∈ (runLoop model fuel msgs fs).events.dropLast, isTerminal e = false := by
  induction fuel generalizing msgs fs with
  | zero => simp [runLoop]
  | succ n ih =>
    cases hm : model msgs with
    | error e =>
      rw [runLoop_error_eq model n msgs fs e hm]
      exact ⟨by simp [isTerminal], by simp⟩
    | ok resp =>
      cases htc : resp.tool_calls with
      | nil =>
        rw [runLoop_final_eq model n msgs fs resp hm htc]
        exact ⟨by simp [isTerminal], by simp⟩
      | cons tc tcs =>
        rw [runLoop_tools_eq model n msgs fs resp tc tcs hm htc]
        have hp := processToolCalls_events_not_terminal (tc :: tcs) fs
        have hrest := ih ((msgs ++ [Msg.ai resp]) ++ (processToolCalls (tc :: tcs) fs).msgs)
          (processToolCalls (tc :: tcs) fs).fs
        have hpf : (processToolCalls (tc :: tcs) fs).events.filter isTerminal = [] :=
          List.filter_eq_nil_iff.mpr (fun a ha => by simp [hp a ha])
        constructor
        · simpa [List.filter_cons, List.filter_append, hpf, isTerminal] using hrest.1
        · intro e he
          rw [show Event.toolStart ((tc :: tcs).map ToolCall.name)
                :: (processToolCalls (tc :: tcs) fs).events
                ++ (runLoop model n
                    ((msgs ++ [Msg.ai resp]) ++ (processToolCalls (tc :: tcs) fs).msgs)
                    (processToolCalls (tc :: tcs) fs).fs).events
              = (Event.toolStart ((tc :: tcs).map ToolCall.name)
                :: (processToolCalls (tc :: tcs) fs).events)
                ++ (runLoop model n
                    ((msgs ++ [Msg.ai resp]) ++ (processToolCalls (tc :: tcs) fs).msgs)
                    (processToolCalls (tc :: tcs) fs).fs).events from by simp] at he
          rcases mem_dropLast_append he with h1 | h2
          · rcases List.mem_cons.mp h1 with rfl | h1
            · rfl
            · exact hp e h1
          · exact hrest.2 e h2

/--
C2: over every behavior of the language model — including one that
returns tool calls on every invocation — the loop performs at most
`maxTurns = 15` model invocations.  The `while (turns < maxTurns)` loop
increments `turns` on every non-breaking iteration, so `maxTurns - turns`
is a strictly decreasing variant: the loop terminates, which the shallow
embedding reflects by being a total function on that fuel.
-/
theorem runStream_invocations_le_fifteen (index : List Chunk) (embO : Option Embedder)
    (model : Model) (query : String) (history : List Msg) (fs : FS) :
    (runStream index embO model query history fs).invocations ≤ 15 := by
  unfold runStream
  exact runLoop_invocations_le model maxTurns _ fs

/--
C1 as amended: every run of `runStream` emits *at most* one terminal
event (`message` or `error`), and any terminal event is the last event of
the sequence.  Exactly one is not guaranteed: exhausting the turn budget
ends the sequence with no terminal event at all (see the counterexample).
-/
theorem runStream_at_most_one_terminal (index : List Chunk) (embO : Option Embedder)
    (model : Model) (query : String) (history : List Msg) (fs : FS) :
    (((runStream index embO model query history fs).events).filter isTerminal).length ≤ 1
  ∧ ∀ e ∈ ((runStream index embO model query history fs).events).dropLast,
      isTerminal e = false := by
  unfold runStream
  exact runLoop_terminal_shape model maxTurns _ fs

/-- A model that requests an unregistered tool on every invocation, so
the loop runs until the turn budget is exhausted. -/
def stuckModel : Model := fun _ => Except.ok ⟨"never", [⟨"bogus", some "1", []⟩]⟩

theorem runLoop_stuckModel_events (fuel : Nat) (msgs : List Msg) (fs : FS) :
    (runLoop stuckModel fuel msgs fs).events
      = List.replicate fuel (Event.toolStart ["bogus"]) := by
  have hbogus : findTool "bogus" = none := rfl
  induction fuel generalizing msgs fs with
  | zero => simp [runLoop]
  | succ n ih =>
    rw [runLoop_tools_eq stuckModel n msgs fs ⟨"never", [⟨"bogus", some "1", []⟩]⟩
      ⟨"bogus", some "1", []⟩ [] rfl rfl]
    simp [processToolCalls, hbogus, ih, List.replicate_succ]

/--
C1, counterexample to the claim as stated: with a model that requests an
unregistered tool on every invocation, the turn budget is exhausted and
the emitted sequence consists of fifteen `tool_start` events and *zero*
terminal events — the stream just closes, contradicting "exactly one
terminal event ends the sequence".
-/
theorem budget_exhaustion_emits_no_terminal_event :
    (runStream [] none stuckModel "q" [] ⟨[], []⟩).events
      = List.replicate 15 (Event.toolStart ["bogus"])
  ∧ ((runStream [] none stuckModel "q" [] ⟨[], []⟩).events.filter isTerminal).length = 0 := by
  have h : (runStream [] none stuckModel "q" [] ⟨[], []⟩).events
      = List.replicate 15 (Event.toolStart ["bogus"]) := by
    unfold runStream
    exact runLoop_stuckModel_events maxTurns _ _
  refine ⟨h, ?_⟩
  rw [h]
  decide

/--
Witness for the amended C1 at a concrete input: the budget-exhausting run
has at most one terminal event, and the event drawn from the front of its
sequence is indeed non-terminal.
-/
theorem runStream_at_most_one_terminal_witness :
    (((runStream [] none stuckModel "q" [] ⟨[], []⟩).events).filter isTerminal).length ≤ 1
  ∧ isTerminal (Event.toolStart ["bogus"]) = false := by
  have hev : (runStream [] none stuckModel "q" [] ⟨[], []⟩).events
      = List.replicate 15 (Event.toolStart ["bogus"]) := by
    unfold runStream
    exact runLoop_stuckModel_events maxTurns _ _
  have h := runStream_at_most_one_terminal [] none stuckModel "q" [] ⟨[], []⟩
  exact ⟨h.1, h.2 (Event.toolStart ["bogus"]) (by rw [hev]; decide)⟩

theorem toolNotFound_msg_mem (tcs : List ToolCall) (fs : FS) (tc : ToolCall)
    (hmem : tc ∈ tcs) (hnf : findTool tc.name = none) :
    Msg.tool (idOrUnknown tc.id) "Error: Tool not found"
      ∈ (processToolCalls tcs fs).msgs := by
  induction tcs generalizing fs with
  | nil => cases hmem
  | cons tc2 rest ih =>
    rcases List.mem_cons.mp hmem with rfl | hmem2
    · simp [processToolCalls, hnf]
    · cases hf : findTool tc2.name with
      | some t =>
        simp only [processToolCalls, hf]
        exact List.mem_cons_of_mem _ (ih _ hmem2)
      | none =>
        simp only [processToolCalls, hf]
        exact List.mem_cons_of_mem _ (ih _ hmem2)

theorem processToolCalls_event_name_registered (tcs : List ToolCall) (fs : FS) (n r : String)
    (h : Event.toolResult n r ∈ (processToolCalls tcs fs).events) :
    (findTool n).isSome = true := by
  induction tcs generalizing fs with
  | nil => simp [processToolCalls] at h
  | cons tc rest ih =>
    cases hf : findTool tc.name with
    | some t =>
      simp only [processToolCalls, hf, List.mem_cons] at h
      rcases h with heq | h2
      · have hname : t.name = tc.name := by
          have hf2 : tools.find? (fun td => td.name == tc.name) = some t := hf
          simpa using List.find?_some hf2
        cases heq
        rw [hname, hf]
        rfl
      · exact ih _ h2
    | none =>
      simp only [processToolCalls, hf] at h
      exact ih _ h

/--
C3: a tool call whose name is not in the registry makes the loop append a
`ToolMessage` with content `"Error: Tool not found"` correlated to the
call's id, emit no `tool_result` progress event for that call (no event
carries an unregistered tool name), and proceed to the next turn step
rather than terminate: with budget remaining, the model is invoked again.
-/
theorem toolNotFound_recorded_and_loop_continues (model : Model) (fuel : Nat)
    (msgs : List Msg) (fs : FS) (resp : ModelResponse) (tc : ToolCall)
    (hm : model msgs = Except.ok resp) (hmem : tc ∈ resp.tool_calls)
    (hnf : findTool tc.name = none) :
    Msg.tool (idOrUnknown tc.id) "Error: Tool not found"
      ∈ (processToolCalls resp.tool_calls fs).msgs
  ∧ (∀ r, Event.toolResult tc.name r ∉ (processToolCalls resp.tool_calls fs).events)
  ∧ 2 ≤ (runLoop model (fuel + 2) msgs fs).invocations := by
  refine ⟨toolNotFound_msg_mem _ _ _ hmem hnf, ?_, ?_⟩
  · intro r hr
    have hreg := processToolCalls_event_name_registered _ _ _ _ hr
    rw [hnf] at hreg
    simp at hreg
  · cases htc : resp.tool_calls with
    | nil => rw [htc] at hmem; cases hmem
    | cons tc2 tcs =>
      rw [runLoop_tools_eq model (fuel + 1) msgs fs resp tc2 tcs hm htc]
      have hpos := runLoop_invocations_pos model fuel
        ((msgs ++ [Msg.ai resp]) ++ (processToolCalls (tc2 :: tcs) fs).msgs)
        (processToolCalls (tc2 :: tcs) fs).fs
      simpa using Nat.add_le_add_left hpos 1

/-- A model that always requests the unregistered tool `no_such_tool`. -/
def bogusModel : Model := fun _ => Except.ok ⟨"", [⟨"no_such_tool", none, []⟩]⟩

/--
Witness for C3 at a concrete input: the unregistered call `no_such_tool`
yields the not-found `ToolMessage` under the id `"unknown"`, no
`tool_result` event, and the loop performs a second model invocation.
-/
theorem toolNotFound_recorded_witness :
    Msg.tool "unknown" "Error: Tool not found"
      ∈ (processToolCalls [⟨"no_such_tool", none, []⟩] ⟨[], []⟩).msgs
  ∧ Event.toolResult "no_such_tool" "anything"
      ∉ (processToolCalls [⟨"no_such_tool", none, []⟩] ⟨[], []⟩).events
  ∧ 2 ≤ (runLoop bogusModel 2 [] ⟨[], []⟩).invocations := by
  have h := toolNotFound_recorded_and_loop_continues bogusModel 0 [] ⟨[], []⟩
    ⟨"", [⟨"no_such_tool", none, []⟩]⟩ ⟨"no_such_tool", none, []⟩ rfl (by simp) rfl
  exact ⟨h.1, h.2.1 "anything", h.2.2⟩

theorem simAcc_swap (a b : List ℝ) :
    (simAcc a b).1 = (simAcc b a).1 ∧ (simAcc a b).2.1 = (simAcc b a).2.2
  ∧ (simAcc a b).2.2 = (simAcc b a).2.1 := by
  induction a generalizing b with
  | nil => cases b <;> simp [simAcc]
  | cons x xs ih =>
    cases b with
    | nil => simp [simAcc]
    | cons y ys =>
      have h := ih ys
      refine ⟨?_, ?_, ?_⟩
      · show x * y + (simAcc xs ys).1 = y * x + (simAcc ys xs).1
        rw [h.1, mul_comm]
      · show x * x + (simAcc xs ys).2.1 = x * x + (simAcc ys xs).2.2
        rw [h.2.1]
      · show y * y + (simAcc xs ys).2.2 = y * y + (simAcc ys xs).2.1
        rw [h.2.2]

theorem simAcc_self_eq (a : List ℝ) :
    (simAcc a a).1 = (simAcc a a).2.1 ∧ (simAcc a a).2.2 = (simAcc a a).2.1 := by
  induction a with
  | nil => simp [simAcc]
  | cons x xs ih =>
    refine ⟨?_, ?_⟩
    · show x * x + (simAcc xs xs).1 = x * x + (simAcc xs xs).2.1
      rw [ih.1]
    · show x * x + (simAcc xs xs).2.2 = x * x + (simAcc xs xs).2.1
      rw [ih.2]

theorem simAcc_normA_nonneg (a b : List ℝ) : 0 ≤ (simAcc a b).2.1 := by
  induction a generalizing b with
  | nil => cases b <;> simp [simAcc]
  | cons x xs ih =>
    cases b with
    | nil => simp [simAcc]
    | cons y ys =>
      show 0 ≤ x * x + (simAcc xs ys).2.1
      exact add_nonneg (mul_self_nonneg x) (ih ys)

theorem simAcc_normA_pos (a : List ℝ) (h : ∃ x ∈ a, x ≠ 0) : 0 < (simAcc a a).2.1 := by
  induction a with
  | nil => simp at h
  | cons x xs ih =>
    show 0 < x * x + (simAcc xs xs).2.1
    rcases h with ⟨y, hy, hy0⟩
    rcases List.mem_cons.mp hy with rfl | hmem
    · exact add_pos_of_pos_of_nonneg (mul_self_pos.mpr hy0) (simAcc_normA_nonneg xs xs)
    · exact add_pos_of_nonneg_of_pos (mul_self_nonneg x) (ih ⟨y, hmem, hy0⟩)

theorem simAcc_normA_zero (a b : List ℝ) (h : ∀ x ∈ a, x = 0) : (simAcc a b).2.1 = 0 := by
  induction a generalizing b with
  | nil => cases b <;> simp [simAcc]
  | cons x xs ih =>
    cases b with
    | nil => simp [simAcc]
    | cons y ys =>
      show x * x + (simAcc xs ys).2.1 = 0
      rw [h x (List.mem_cons_self x xs), ih ys (fun z hz => h z (List.mem_cons_of_mem x hz))]
      simp

theorem simAcc_normB_zero (a b : List ℝ) (h : ∀ x ∈ b, x = 0) : (simAcc a b).2.2 = 0 :=
  (simAcc_swap a b).2.2.trans (simAcc_normA_zero b a h)

/--
C7: for equal-length vectors, `cosineSimilarity` is symmetric; the
self-similarity of any non-zero vector is exactly `1`; and the similarity
is `0` whenever either argument is the zero vector (the
division-by-zero guard returns `0` when either accumulated norm is `0`).
-/
theorem cosineSimilarity_props (A B : List ℝ) (hlen : A.length = B.length) :
    cosineSimilarity A B = cosineSimilarity B A
  ∧ ((∃ x ∈ A, x ≠ 0) → cosineSimilarity A A = 1)
  ∧ (((∀ x ∈ A, x = 0) ∨ (∀ x ∈ B, x = 0)) → cosineSimilarity A B = 0) := by
  refine ⟨?_, ?_, ?_⟩
  · have h := simAcc_swap A B
    simp only [cosineSimilarity]
    rw [h.1, h.2.1, h.2.2]
    by_cases h1 : (simAcc B A).2.1 = 0
    · simp [h1]
    · by_cases h2 : (simAcc B A).2.2 = 0
      · simp [h2]
      · simp [h1, h2, mul_comm]
  · intro hA
    have hpos := simAcc_normA_pos A hA
    have hself := simAcc_self_eq A
    simp only [cosineSimilarity]
    rw [hself.2, hself.1, if_neg (not_or.mpr ⟨ne_of_gt hpos, ne_of_gt hpos⟩)]
    rw [Real.mul_self_sqrt hpos.le]
    exact div_self (ne_of_gt hpos)
  · intro h
    rcases h with hA | hB
    · simp [cosineSimilarity, simAcc_normA_zero A B hA]
    · simp [cosineSimilarity, simAcc_normB_zero A B hB]

/--
Witness for C7 at concrete inputs: symmetry for `[1,2]` against `[2,1]`,
self-similarity `1` for the non-zero `[1,2]`, and similarity `0` when the
first argument is the zero vector `[0,0]`.
-/
theorem cosineSimilarity_props_witness :
    cosineSimilarity [1, 2] [2, 1] = cosineSimilarity [2, 1] [1, 2]
  ∧ cosineSimilarity [1, 2] [1, 2] = 1
  ∧ cosineSimilarity [0, 0] [2, 1] = 0 := by
  have h1 := cosineSimilarity_props [1, 2] [2, 1] rfl
  have h2 := cosineSimilarity_props [0, 0] [2, 1] rfl
  exact ⟨h1.1, h1.2.1 ⟨1, by simp, one_ne_zero⟩,
    h2.2.2 (Or.inl fun x hx => by simpa using hx)⟩

/--
C5: `retrieveContext` returns the empty string — and, being a total
function of the modelled inputs, never throws — when the index is empty,
when no embedder is configured, when the indexed chunks carry no vectors,
or when computing the query's own embedding fails; an embedding failure
never aborts the turn.
-/
theorem retrieveContext_degrades_to_empty (index : List Chunk) (embO : Option Embedder)
    (q : String) (k : Nat) :
    (index = [] → retrieveContext index embO q k = "")
  ∧ (embO = none → retrieveContext index embO q k = "")
  ∧ ((∀ c ∈ index, c.embedding = none) → retrieveContext index embO q k = "")
  ∧ (∀ emb err, embO = some emb → emb q = Except.error err →
      retrieveContext index embO q k = "") := by
  refine ⟨?_, ?_, ?_, ?_⟩
  · rintro rfl
    cases embO <;> rfl
  · rintro rfl
    cases index <;> rfl
  · intro h
    cases index with
    | nil => cases embO <;> rfl
    | cons c0 rest =>
      cases embO with
      | none => rfl
      | some emb => simp [retrieveContext, h c0 (List.mem_cons_self c0 rest)]
  · intro emb err hemb herr
    subst hemb
    cases index with
    | nil => rfl
    | cons c0 rest =>
      cases hc : c0.embedding with
      | none => simp [retrieveContext, hc]
      | some v => simp [retrieveContext, hc, herr]

/--
Witness for C5 at concrete inputs: the empty index yields an empty
context, and an index whose chunk carries no vector yields an empty
context even with an embedder configured.
-/
theorem retrieveContext_degrades_witness :
    retrieveContext [] none "q" 5 = ""
  ∧ retrieveContext [⟨"f.ts", "text", none⟩]
      (some (fun _ => Except.error "no embedder")) "q" 5 = "" := by
  refine ⟨(retrieveContext_degrades_to_empty [] none "q" 5).1 rfl, ?_⟩
  exact (retrieveContext_degrades_to_empty [⟨"f.ts", "text", none⟩]
    (some (fun _ => Except.error "no embedder")) "q" 5).2.2.1
    (fun c hc => by simpa using congrArg Chunk.embedding (List.mem_singleton.mp hc))

/--
C6: over a non-empty index whose first chunk carries a vector, with a
successful query embedding, `retrieveContext` returns the top
`min k (index size)` chunks by descending cosine-similarity score,
rendered one per chunk (location plus content) and joined with the
`"\n---\n"` delimiter; every returned chunk scores at least as high as
every chunk left out.
-/
theorem retrieveContext_topk (c0 : Chunk) (rest : List Chunk) (emb : Embedder)
    (q : String) (k : Nat) (qe v0 : List ℝ)
    (h0 : c0.embedding = some v0) (he : emb q = Except.ok qe) :
    retrieveContext (c0 :: rest) (some emb) q k
      = String.intercalate "\n---\n" (((rankedChunks qe (c0 :: rest)).take k).map formatChunk)
  ∧ ((rankedChunks qe (c0 :: rest)).take k).length = min k (c0 :: rest).length
  ∧ List.Sorted scoreGe (rankedChunks qe (c0 :: rest))
  ∧ (rankedChunks qe (c0 :: rest)).Perm (scoredChunks qe (c0 :: rest))
  ∧ ∀ x ∈ (rankedChunks qe (c0 :: rest)).take k,
      ∀ y ∈ (rankedChunks qe (c0 :: rest)).drop k, y.2 ≤ x.2 := by
  have hlen : (rankedChunks qe (c0 :: rest)).length = (c0 :: rest).length := by
    rw [rankedChunks,
      (List.perm_insertionSort scoreGe (scoredChunks qe (c0 :: rest))).length_eq]
    simp [scoredChunks]
  have hs : List.Sorted scoreGe (rankedChunks qe (c0 :: rest)) :=
    List.sorted_insertionSort scoreGe (scoredChunks qe (c0 :: rest))
  refine ⟨by simp [retrieveContext, h0, he], ?_, hs,
    List.perm_insertionSort scoreGe (scoredChunks qe (c0 :: rest)), ?_⟩
  · rw [List.length_take, hlen]
  · intro x hx y hy
    have hp : List.Pairwise scoreGe ((rankedChunks qe (c0 :: rest)).take k
        ++ (rankedChunks qe (c0 :: rest)).drop k) := by
      rw [List.take_append_drop]
      exact hs
    exact (List.pairwise_append.mp hp).2.2 x hx y hy

/--
Witness for C6 at a concrete input: retrieval with `k = 5` over an index
of size 2 selects `min 5 2 = 2` chunks.
-/
theorem retrieveContext_topk_witness :
    ((rankedChunks [1, 0] [⟨"a", "ta", some [1, 0]⟩, ⟨"b", "tb", some [0, 1]⟩]).take 5).length
      = 2 := by
  have h := retrieveContext_topk ⟨"a", "ta", some [1, 0]⟩ [⟨"b", "tb", some [0, 1]⟩]
    (fun _ => Except.ok [1, 0]) "q" 5 [1, 0] [1, 0] rfl rfl
  exact h.2.1.trans (by simp)

/--
C9: the vectors-present check of `retrieveContext` inspects only the
*first* indexed chunk — if that chunk lacks an embedding the context is
empty even when later chunks carry vectors — while in a mixed index every
chunk without a vector is scored `-1` and therefore ranks strictly after
every chunk with a non-negative similarity score; the computation is
total (no crash).
-/
theorem retrieveContext_first_gate_and_ranking (c0 : Chunk) (rest : List Chunk)
    (emb : Embedder) (q : String) (k : Nat) (qe : List ℝ) :
    (c0.embedding = none → retrieveContext (c0 :: rest) (some emb) q k = "")
  ∧ (∀ c s, (c, s) ∈ rankedChunks qe (c0 :: rest) → c.embedding = none → s = -1)
  ∧ (∀ i j : Fin (rankedChunks qe (c0 :: rest)).length,
      ((rankedChunks qe (c0 :: rest)).get i).1.embedding = none →
      0 ≤ ((rankedChunks qe (c0 :: rest)).get j).2 → (j : Nat) < (i : Nat)) := by
  have hminus : ∀ c s, (c, s) ∈ rankedChunks qe (c0 :: rest) → c.embedding = none →
      s = -1 := by
    intro c s hmem hc
    rw [rankedChunks, List.mem_insertionSort] at hmem
    simp only [scoredChunks, List.mem_map] at hmem
    rcases hmem with ⟨c2, _, heq⟩
    cases heq
    simp [scoreOf, hc]
  refine ⟨fun h0 => by simp [retrieveContext, h0], hminus, ?_⟩
  intro i j hinone hj0
  have hs : List.Sorted scoreGe (rankedChunks qe (c0 :: rest)) :=
    List.sorted_insertionSort scoreGe (scoredChunks qe (c0 :: rest))
  have hi1 : ((rankedChunks qe (c0 :: rest)).get i).2 = -1 :=
    hminus _ _ (List.get_mem _ i.1 i.2) hinone
  by_contra hle
  rcases Nat.lt_or_ge (i : Nat) (j : Nat) with hlt | hge
  · have hrel := hs.rel_get_of_lt (show i < j from hlt)
    have : ((rankedChunks qe (c0 :: rest)).get j).2 ≤ -1 := by
      rw [← hi1]
      exact hrel
    linarith
  · have : (i : Nat) = (j : Nat) := Nat.le_antisymm (Nat.le_of_not_lt hle) hge
    have hij : i = j := Fin.ext this
    rw [← hij, hi1] at hj0
    linarith

/--
Witness for C9 at a concrete input: a two-chunk index whose first chunk
lacks a vector yields an empty context even though the second chunk has
one; and in the ranking of a mixed index whose first chunk has a vector,
the vectorless chunk is assigned score `-1`.
-/
theorem retrieveContext_first_gate_witness :
    retrieveContext [⟨"a", "ta", none⟩, ⟨"b", "tb", some [1, 0]⟩]
      (some (fun _ => Except.ok [1, 0])) "q" 5 = ""
  ∧ scoreOf [1, 0] ⟨"b", "tb", none⟩ = -1 := by
  refine ⟨(retrieveContext_first_gate_and_ranking ⟨"a", "ta", none⟩ [⟨"b", "tb", some [1, 0]⟩]
    (fun _ => Except.ok [1, 0]) "q" 5 [1, 0]).1 rfl, ?_⟩
  refine (retrieveContext_first_gate_and_ranking ⟨"a", "ta", some [1, 0]⟩ [⟨"b", "tb", none⟩]
    (fun _ => Except.ok [1, 0]) "q" 5 [1, 0]).2.1 ⟨"b", "tb", none⟩
    (scoreOf [1, 0] ⟨"b", "tb", none⟩) ?_ rfl
  rw [rankedChunks, List.mem_insertionSort]
  simp [scoredChunks]

/--
Witness for the amended C10 at a concrete input: two id-less tool calls in
one batch produce two `ToolMessage`s that share the correlation id
`"unknown"`, and the appended entries are `ToolMessage`s.
-/
theorem toolResult_message_ids_witness :
    (processToolCalls [⟨"nope1", none, []⟩, ⟨"nope2", none, []⟩] ⟨[], []⟩).msgs.map msgToolId
      = ["unknown", "unknown"]
  ∧ isToolMsg (Msg.tool "unknown" "Error: Tool not found") = true := by
  have h := toolResult_message_ids [⟨"nope1", none, []⟩, ⟨"nope2", none, []⟩] ⟨[], []⟩
  exact ⟨h.1.trans (by decide), h.2.2 (Msg.tool "unknown" "Error: Tool not found") (by decide)⟩
